import Mathlib

/-!
A shallow embedding of the compiler-toolchain probing layer
(`lib/spack/spack/compiler.py`): the flag tokenizer, the link-line parser
and its system-path post-filter, the reversible environment scope, the
toolchain value model with its serialized descriptor, and the persistent
probe cache, together with theorems settling the specified properties.

String primitives (whitespace split, prefix test, line split) are
implemented structurally over `List Char` so that every definition is
kernel-computable; they mirror the semantics of the corresponding Python
`str` methods used in the source.
-/

/-! ## String primitives -/

/-- Prefix test on character lists (`str.startswith`). -/
def charsStartWith : List Char → List Char → Bool
  | [], _ => true
  | _ :: _, [] => false
  | p :: ps, c :: cs => p = c && charsStartWith ps cs

/-- `s.startswith(pre)` for strings. -/
def strStartsWith (s pre : String) : Bool :=
  charsStartWith pre.toList s.toList

/-- Strip a literal prefix from a character list, returning the remainder. -/
def stripChars : List Char → List Char → Option (List Char)
  | [], cs => some cs
  | _ :: _, [] => none
  | p :: ps, c :: cs => if p = c then stripChars ps cs else none

/-- Whitespace split of a character list discarding empty pieces, with the
accumulator holding the current word reversed (`str.split()`). -/
def wordsAux : List Char → List Char → List String
  | [], acc => if acc.isEmpty then [] else [String.mk acc.reverse]
  | c :: cs, acc =>
    if c.isWhitespace then
      if acc.isEmpty then wordsAux cs [] else String.mk acc.reverse :: wordsAux cs []
    else wordsAux cs (c :: acc)

/-- `str.split()`: split on whitespace runs, discarding empties. -/
def splitWs (s : String) : List String :=
  wordsAux s.toList []

/-- Split a character list into lines at `'\n'` (`str.splitlines` for
newline-terminated text: a trailing newline produces no empty last line). -/
def linesAux : List Char → List Char → List String
  | [], acc => if acc.isEmpty then [] else [String.mk acc.reverse]
  | c :: cs, acc =>
    if c = '\n' then String.mk acc.reverse :: linesAux cs []
    else linesAux cs (c :: acc)

/-- `str.splitlines()` restricted to `'\n'` separators. -/
def splitLines (s : String) : List String :=
  linesAux s.toList []

/-- Space-join of a list of words (the whitespace-normalized form). -/
def joinSpace : List String → String
  | [] => ""
  | [a] => a
  | a :: b :: ts => a ++ " " ++ joinSpace (b :: ts)

/-! ## Flag tokenizer (`tokenize_flags`) -/

/-- The accumulation loop of `tokenize_flags`: a token starting with `-`
closes the current flag and opens a new one; any other token is
space-joined onto the current flag.  The current flag is emitted at the
end of the input. -/
def tokenizeGo (flag : String) (propagate : Bool) : List String → List (String × Bool)
  | [] => [(flag, propagate)]
  | t :: ts =>
    if strStartsWith t "-" then (flag, propagate) :: tokenizeGo t propagate ts
    else tokenizeGo (flag ++ " " ++ t) propagate ts

/-- `tokenize_flags` from `compiler.py`: split the flag string on
whitespace and group each value token with the preceding flag token. -/
def tokenize_flags (flags_values : String) (propagate : Bool) : List (String × Bool) :=
  match splitWs flags_values with
  | [] => []
  | t :: ts => tokenizeGo t propagate ts

theorem tokenizeGo_ne_nil (flag : String) (p : Bool) (ts : List String) :
    tokenizeGo flag p ts ≠ [] := by
  induction ts generalizing flag with
  | nil => simp [tokenizeGo]
  | cons t ts ih =>
    by_cases h : strStartsWith t "-" <;> simp [tokenizeGo, h, ih]

theorem joinSpace_cons_of_ne_nil (a : String) (l : List String) (h : l ≠ []) :
    joinSpace (a :: l) = a ++ " " ++ joinSpace l := by
  cases l with
  | nil => exact absurd rfl h
  | cons b bs => rfl

theorem tokenizeGo_snd (flag : String) (p : Bool) (ts : List String) :
    ∀ pr ∈ tokenizeGo flag p ts, pr.2 = p := by
  induction ts generalizing flag with
  | nil => simp [tokenizeGo]
  | cons t ts ih =>
    intro pr hpr
    by_cases h : strStartsWith t "-"
    · rw [tokenizeGo, if_pos h] at hpr
      rcases List.mem_cons.mp hpr with h1 | h2
      · simp [h1]
      · exact ih t pr h2
    · rw [tokenizeGo, if_neg h] at hpr
      exact ih _ pr hpr

theorem tokenizeGo_join (flag : String) (p : Bool) (ts : List String) :
    joinSpace ((tokenizeGo flag p ts).map Prod.fst) = joinSpace (flag :: ts) := by
  induction ts generalizing flag with
  | nil => rfl
  | cons t ts ih =>
    by_cases h : strStartsWith t "-"
    · rw [tokenizeGo, if_pos h, List.map_cons]
      rw [joinSpace_cons_of_ne_nil _ _ (by
        intro he
        exact tokenizeGo_ne_nil t p ts (List.map_eq_nil_iff.mp he))]
      rw [ih t]
      rfl
    · rw [tokenizeGo, if_neg h, ih (flag ++ " " ++ t)]
      cases ts with
      | nil => simp [joinSpace, String.append_assoc]
      | cons u us => simp [joinSpace, String.append_assoc]

theorem tokenizeGo_no_dash (flag : String) (p : Bool) (ts : List String)
    (h : ∀ t ∈ ts, ¬ strStartsWith t "-") :
    tokenizeGo flag p ts = [(joinSpace (flag :: ts), p)] := by
  induction ts generalizing flag with
  | nil => rfl
  | cons t ts ih =>
    have ht : ¬ strStartsWith t "-" := h t (List.mem_cons_self t ts)
    rw [tokenizeGo, if_neg ht, ih (flag ++ " " ++ t) (fun u hu => h u (List.mem_cons_of_mem t hu))]
    cases ts with
    | nil => rfl
    | cons u us => simp [joinSpace, String.append_assoc]

/-- C5: `tokenize_flags` groups value words onto the preceding flag token,
carries the caller's propagate value unchanged on every pair, returns `[]`
on empty/whitespace input, returns one whitespace-normalized token for a
value-only string, and on `"-O2 -include foo.h"` yields
`[("-O2", p), ("-include foo.h", p)]`.  Space-joining the produced tokens
recovers the whitespace-normalized input, which is the precise sense in
which non-dash words are appended to the previous token rather than
opening a new one. -/
theorem C5_tokenize_flags :
    (∀ p : Bool, tokenize_flags "" p = []) ∧
    (∀ p : Bool, tokenize_flags "   " p = []) ∧
    (∀ p : Bool, tokenize_flags "-O2 -include foo.h" p
        = [("-O2", p), ("-include foo.h", p)]) ∧
    (∀ s p pr, pr ∈ tokenize_flags s p → pr.2 = p) ∧
    (∀ s p, splitWs s ≠ [] → (∀ t ∈ splitWs s, ¬ strStartsWith t "-") →
        tokenize_flags s p = [(joinSpace (splitWs s), p)]) ∧
    (∀ s p, joinSpace ((tokenize_flags s p).map Prod.fst) = joinSpace (splitWs s)) := by
  refine ⟨?_, ?_, ?_, ?_, ?_, ?_⟩
  · intro p; cases p <;> decide
  · intro p; cases p <;> decide
  · intro p; cases p <;> decide
  · intro s p pr hpr
    unfold tokenize_flags at hpr
    rcases hsp : splitWs s with _ | ⟨t, ts⟩
    · rw [hsp] at hpr; simp at hpr
    · rw [hsp] at hpr; exact tokenizeGo_snd t p ts pr hpr
  · intro s p hne hnd
    unfold tokenize_flags
    rcases hsp : splitWs s with _ | ⟨t, ts⟩
    · exact absurd hsp hne
    · rw [hsp] at hnd
      exact tokenizeGo_no_dash t p ts (fun u hu => hnd u (List.mem_cons_of_mem t hu))
  · intro s p
    unfold tokenize_flags
    rcases hsp : splitWs s with _ | ⟨t, ts⟩
    · rfl
    · exact tokenizeGo_join t p ts

/-- Witness for C5 at concrete inputs. -/
theorem C5_tokenize_flags_witness :
    tokenize_flags "-O2 -include foo.h" true = [("-O2", true), ("-include foo.h", true)] ∧
    tokenize_flags "plain value" false = [("plain value", false)] := by
  refine ⟨C5_tokenize_flags.2.2.1 true, ?_⟩
  exact (C5_tokenize_flags.2.2.2.2.1 "plain value" false (by decide) (by decide)).trans (by decide)

/-! ## Environment scope (`Compiler.compiler_environment`) -/

/-- The process environment table, as an association of variable names to
values. -/
def Env : Type := List (String × String)

/-- `Compiler.compiler_environment`: if the toolchain declares no modules
and no environment modifications, run the operation directly (no snapshot,
no restore).  Otherwise snapshot the environment, load each module in
declared order, apply the declarative environment modifications, run the
operation, and unconditionally (also when the operation raises) restore
the environment to exactly the snapshot.  Module loads and the parsed
modification application are external collaborators, passed as functions;
the operation returns an `Except` result together with the environment it
leaves behind. -/
def compiler_environment {ε α : Type} (modules : List String)
    (environment : List (String × String))
    (load_module : String → Env → Env)
    (apply_modifications : List (String × String) → Env → Env)
    (op : Env → Except ε α × Env) (env0 : Env) : Except ε α × Env :=
  if modules = [] ∧ environment = [] then op env0
  else
    let backup_env := env0
    let env1 := modules.foldl (fun e m => load_module m e) env0
    let env2 := apply_modifications environment env1
    ((op env2).1, backup_env)

/-- C3: for every toolchain and wrapped operation, the environment scope
restores the environment to exactly the pre-scope snapshot on exit, both
when the operation returns normally and when it raises (the scope's
resulting environment is the snapshot, whatever environment the operation
left behind and whatever its `Except` outcome); and when no modules and no
environment modifications are declared, the scope is a no-op equal to
running the operation directly, taking no snapshot and performing no
restore. -/
theorem C3_compiler_environment {ε α : Type} (modules : List String)
    (environment : List (String × String))
    (load_module : String → Env → Env)
    (apply_modifications : List (String × String) → Env → Env)
    (op : Env → Except ε α × Env) (env0 : Env) :
    (modules ≠ [] ∨ environment ≠ [] →
      (compiler_environment modules environment load_module apply_modifications op env0).2
          = env0 ∧
      (compiler_environment modules environment load_module apply_modifications op env0).1
          = (op (apply_modifications environment
                (modules.foldl (fun e m => load_module m e) env0))).1) ∧
    (modules = [] ∧ environment = [] →
      compiler_environment modules environment load_module apply_modifications op env0
          = op env0) := by
  constructor
  · intro h
    have hne : ¬ (modules = [] ∧ environment = []) := by
      rcases h with h | h
      · exact fun hc => h hc.1
      · exact fun hc => h hc.2
    rw [compiler_environment, if_neg hne]
    exact ⟨rfl, rfl⟩
  · intro h
    rw [compiler_environment, if_pos h]

/-- Witness for C3: a concrete raising operation under a module-declaring
toolchain has its environment restored, and an empty toolchain is a
no-op. -/
theorem C3_compiler_environment_witness :
    (compiler_environment (ε := Unit) (α := Unit) ["gcc-mod"] []
        (fun _ e => ("CC", "gcc") :: e) (fun _ e => e)
        (fun e => (Except.error (), ("JUNK", "1") :: e)) [("PATH", "/bin")]).2
      = [("PATH", "/bin")] ∧
    compiler_environment (ε := Unit) (α := Unit) [] []
        (fun _ e => e) (fun _ e => e)
        (fun e => (Except.ok (), ("X", "1") :: e)) []
      = (Except.ok (), [("X", "1")]) := by
  constructor
  · exact (C3_compiler_environment ["gcc-mod"] [] (fun _ e => ("CC", "gcc") :: e)
      (fun _ e => e) (fun e => (Except.error (), ("JUNK", "1") :: e)) [("PATH", "/bin")]).1
      (Or.inl (by decide)) |>.1
  · exact (C3_compiler_environment [] [] (fun _ e => e) (fun _ e => e)
      (fun e => (Except.ok (), ("X", "1") :: e)) []).2 ⟨rfl, rfl⟩

/-! ## Version resolution (`get_real_version`, `real_version`) -/

/-- `Compiler.extract_version_from_output`: apply the toolchain family's
version regex search to the combined output; the first capture group is
the version, and a failed search yields `"unknown"`.  The regex search is
family-specific and passed as a function returning the first capture
group on a match. -/
def extract_version_from_output (version_search : String → Option String)
    (output : String) : String :=
  (version_search output).getD "unknown"

/-- `Compiler.get_real_version`: run the C driver with the version
argument (the run outcome is external: `Except.error` models a
`ProcessError`, i.e. any execution failure not covered by the toolchain's
ignorable exit codes; `Except.ok` carries the combined stdout+stderr) and
extract the version; any execution failure yields `"unknown"`. -/
def get_real_version (run_outcome : Except Unit String)
    (version_search : String → Option String) : String :=
  match run_outcome with
  | Except.error _ => "unknown"
  | Except.ok output => extract_version_from_output version_search output

/-- `Compiler.real_version`: take the cached real version string (empty
string models an absent/falsy value); if it is absent or `"unknown"`,
fall back to the declared identity version, else parse it as a version. -/
def real_version {V : Type} (parse_version : String → V) (declared_version : V)
    (cached : String) : V :=
  if cached = "" ∨ cached = "unknown" then declared_version
  else parse_version cached

/-- C6: any execution failure other than the ignorable exit codes yields
real version `"unknown"`; a successful run whose output the family version
regex does not match also yields `"unknown"`; and whenever the cached real
version is absent or `"unknown"`, the `real_version` accessor returns the
declared identity version. -/
theorem C6_real_version_fallback :
    (∀ version_search : String → Option String,
      get_real_version (Except.error ()) version_search = "unknown") ∧
    (∀ (version_search : String → Option String) (output : String),
      version_search output = none →
        get_real_version (Except.ok output) version_search = "unknown") ∧
    (∀ (V : Type) (parse_version : String → V) (declared_version : V) (cached : String),
      cached = "" ∨ cached = "unknown" →
        real_version parse_version declared_version cached = declared_version) := by
  refine ⟨fun _ => rfl, ?_, ?_⟩
  · intro vs output h
    simp [get_real_version, extract_version_from_output, h]
  · intro V pv dv cached h
    rw [real_version, if_pos h]

/-- Witness for C6: a failed probe, an unmatched output, and an
`"unknown"` cached value all fall back as claimed. -/
theorem C6_real_version_fallback_witness :
    get_real_version (Except.error ()) (fun _ => some "13.2.0") = "unknown" ∧
    get_real_version (Except.ok "gibberish") (fun _ => none) = "unknown" ∧
    real_version (fun s => s) "4.5.0-declared" "unknown" = "4.5.0-declared" := by
  refine ⟨C6_real_version_fallback.1 _, ?_, ?_⟩
  · exact C6_real_version_fallback.2.1 (fun _ => none) "gibberish" rfl
  · exact C6_real_version_fallback.2.2 String (fun s => s) "4.5.0-declared" "unknown"
      (Or.inr rfl)

/-! ## Executable verification (`Compiler.verify_executables`) -/

/-- The declared, non-null, non-empty compiler executables in the order
`(cc, cxx, f77, fc)` tested by `verify_executables` (Python's `if cmp`
skips both `None` and the empty string). -/
def declaredExecutables (cc cxx f77 fc : Option String) : List String :=
  ([cc, cxx, f77, fc].filterMap id).filter (fun e => e ≠ "")

/-- `Compiler.verify_executables`: inside the compiler's environment scope
(modules loaded and modifications applied, so relative names resolve
against the scoped environment), collect every declared executable that is
not accessible (`accessible` models `which` resolution plus
`os.path.isfile` and the execute-permission check, under the current
environment) and raise a single `CompilerAccessError` carrying the whole
list when it is nonempty.  The raised list is the error payload. -/
def verify_executables (cc cxx f77 fc : Option String)
    (modules : List String) (environment : List (String × String))
    (load_module : String → Env → Env)
    (apply_modifications : List (String × String) → Env → Env)
    (accessible : Env → String → Bool) (env0 : Env) :
    Except (List String) Unit × Env :=
  compiler_environment modules environment load_module apply_modifications
    (fun env =>
      let missing :=
        (declaredExecutables cc cxx f77 fc).filter (fun e => ¬ accessible env e)
      (if missing = [] then Except.ok () else Except.error missing, env))
    env0

/-- The environment in force while `verify_executables` checks
accessibility: the scoped environment when modules or modifications are
declared, the unmodified environment otherwise. -/
def scopedEnv (modules : List String) (environment : List (String × String))
    (load_module : String → Env → Env)
    (apply_modifications : List (String × String) → Env → Env) (env0 : Env) : Env :=
  if modules = [] ∧ environment = [] then env0
  else apply_modifications environment (modules.foldl (fun e m => load_module m e) env0)

/-- C10: `verify_executables` checks every declared executable under the
toolchain's environment scope and reports all inaccessible ones in one
single error — its outcome is `ok` exactly when every declared executable
is accessible in the scoped environment, and otherwise one `error` whose
payload is the full list of inaccessible declared executables, never a
proper subset. -/
theorem C10_verify_executables (cc cxx f77 fc : Option String)
    (modules : List String) (environment : List (String × String))
    (load_module : String → Env → Env)
    (apply_modifications : List (String × String) → Env → Env)
    (accessible : Env → String → Bool) (env0 : Env) :
    (verify_executables cc cxx f77 fc modules environment load_module
        apply_modifications accessible env0).1
      = (if (declaredExecutables cc cxx f77 fc).filter
            (fun e => ¬ accessible
              (scopedEnv modules environment load_module apply_modifications env0) e) = []
         then Except.ok ()
         else Except.error ((declaredExecutables cc cxx f77 fc).filter
            (fun e => ¬ accessible
              (scopedEnv modules environment load_module apply_modifications env0) e))) ∧
    (∀ m, (verify_executables cc cxx f77 fc modules environment load_module
        apply_modifications accessible env0).1 = Except.error m →
      ∀ e ∈ declaredExecutables cc cxx f77 fc,
        ¬ accessible (scopedEnv modules environment load_module apply_modifications env0) e →
          e ∈ m) := by
  have hmain : (verify_executables cc cxx f77 fc modules environment load_module
      apply_modifications accessible env0).1
    = (if (declaredExecutables cc cxx f77 fc).filter
          (fun e => ¬ accessible
            (scopedEnv modules environment load_module apply_modifications env0) e) = []
       then Except.ok ()
       else Except.error ((declaredExecutables cc cxx f77 fc).filter
          (fun e => ¬ accessible
            (scopedEnv modules environment load_module apply_modifications env0) e))) := by
    by_cases h : modules = [] ∧ environment = []
    · rw [verify_executables, compiler_environment, if_pos h, scopedEnv, if_pos h]
    · rw [verify_executables, compiler_environment, if_neg h, scopedEnv, if_neg h]
  refine ⟨hmain, ?_⟩
  intro m hm e he hacc
  rw [hmain] at hm
  by_cases hnil : (declaredExecutables cc cxx f77 fc).filter
      (fun e => ¬ accessible
        (scopedEnv modules environment load_module apply_modifications env0) e) = []
  · rw [if_pos hnil] at hm
    exact absurd hm (by simp)
  · rw [if_neg hnil] at hm
    have := Except.error.inj hm
    rw [← this]
    exact List.mem_filter.mpr ⟨he, by simpa using hacc⟩

/-- Witness for C10: a toolchain with two inaccessible executables
reports both at once. -/
theorem C10_verify_executables_witness :
    (verify_executables (some "gcc") (some "g++") (some "gfortran") none
        [] [] (fun _ e => e) (fun _ e => e)
        (fun _ e => e = "g++") []).1
      = Except.error ["gcc", "gfortran"] ∧
    "gcc" ∈ ["gcc", "gfortran"] ∧ "gfortran" ∈ ["gcc", "gfortran"] := by
  refine ⟨rfl, ?_, ?_⟩
  · exact (C10_verify_executables (some "gcc") (some "g++") (some "gfortran") none
      [] [] (fun _ e => e) (fun _ e => e) (fun _ e => e = "g++") []).2
      ["gcc", "gfortran"] rfl "gcc" (by decide) (by decide)
  · exact (C10_verify_executables (some "gcc") (some "g++") (some "gfortran") none
      [] [] (fun _ e => e) (fun _ e => e) (fun _ e => e = "g++") []).2
      ["gcc", "gfortran"] rfl "gfortran" (by decide) (by decide)

/-! ## Toolchain model (`Compiler`), equality and serialized descriptor -/

/-- The `Compiler` value object: the four driver paths, the identity spec,
operating system and target (in their string forms used by `__eq__` and
`to_dict`), the flag map as an ordered association of flag category to
ordered token list, the required modules, the declarative environment
modifications, the extra RPATHs, the tri-state implicit-RPATH override,
and the optional alias. -/
structure CompilerModel where
  cc : Option String
  cxx : Option String
  f77 : Option String
  fc : Option String
  spec : String
  operating_system : String
  target : String
  flags : List (String × List String)
  modules : List String
  environment : List (String × String)
  extra_rpaths : List String
  enable_implicit_rpaths : Option Bool
  aliasName : Option String
deriving DecidableEq

/-- `Compiler.__eq__`: field-wise comparison of the four paths, spec,
operating system, target, flags, modules, environment, extra RPATHs and
the implicit-RPATH override.  The `alias` field is not compared. -/
def compilerEq (a b : CompilerModel) : Bool :=
  a.cc = b.cc && a.cxx = b.cxx && a.fc = b.fc && a.f77 = b.f77
    && a.spec = b.spec && a.operating_system = b.operating_system
    && a.target = b.target && a.flags = b.flags && a.modules = b.modules
    && a.environment = b.environment && a.extra_rpaths = b.extra_rpaths
    && a.enable_implicit_rpaths = b.enable_implicit_rpaths

/-- The normalized serialized descriptor built by `Compiler.to_dict`:
`spec`, the `paths` sub-object, the `flags` sub-object with each token
list space-joined, `operating_system`, `target`, `modules`,
`environment`, `extra_rpaths`, plus `implicit_rpaths` only when the
override is set and `alias` only when an alias is present.  The probe
cache key is the SHA-256 hex digest of the JSON encoding of this
descriptor; since the JSON encoding is injective on descriptors and the
digest is a deterministic function of the encoded bytes, two descriptors
produce the identical key exactly when they are equal (up to digest
collisions in the distinct case). -/
structure CompilerDescriptor where
  spec : String
  paths_cc : Option String
  paths_cxx : Option String
  paths_f77 : Option String
  paths_fc : Option String
  flags : List (String × String)
  operating_system : String
  target : String
  modules : List String
  environment : List (String × String)
  extra_rpaths : List String
  implicit_rpaths : Option Bool
  aliasName : Option String
deriving DecidableEq

/-- `Compiler.to_dict`. -/
def to_dict (c : CompilerModel) : CompilerDescriptor :=
  { spec := c.spec
    paths_cc := c.cc
    paths_cxx := c.cxx
    paths_f77 := c.f77
    paths_fc := c.fc
    flags := c.flags.map (fun fv => (fv.1, joinSpace fv.2))
    operating_system := c.operating_system
    target := c.target
    modules := c.modules
    environment := c.environment
    extra_rpaths := c.extra_rpaths
    implicit_rpaths := c.enable_implicit_rpaths
    aliasName := c.aliasName }

/-- A baseline toolchain configuration used as a concrete test vector. -/
def gccToolchain : CompilerModel :=
  { cc := some "/usr/bin/gcc"
    cxx := some "/usr/bin/g++"
    f77 := some "/usr/bin/gfortran"
    fc := some "/usr/bin/gfortran"
    spec := "gcc@13.2.0"
    operating_system := "ubuntu22.04"
    target := "x86_64"
    flags := [("cflags", ["-O2"])]
    modules := []
    environment := []
    extra_rpaths := []
    enable_implicit_rpaths := none
    aliasName := none }

/-- The same toolchain configuration carrying an alias. -/
def gccToolchainAliased : CompilerModel :=
  { gccToolchain with aliasName := some "my-gcc" }

/-- C1 counterexample: two `Compiler` instances that are equal under the
model's equality (`__eq__` compares every identity-relevant field but not
`alias`) serialize to different descriptors when their aliases differ —
`to_dict` embeds `alias` — so the cache key, the SHA-256 digest of the
serialized descriptor, is not a function of the equality class: the two
serialized descriptors are distinct byte strings and hash to the same
digest only in the event of a SHA-256 collision. -/
theorem C1_counterexample :
    compilerEq gccToolchain gccToolchainAliased = true ∧
    to_dict gccToolchain ≠ to_dict gccToolchainAliased := by
  constructor
  · decide
  · intro h
    have := congrArg CompilerDescriptor.aliasName h
    simp [to_dict, gccToolchain, gccToolchainAliased] at this

/-- C1 amended: for every pair of `Compiler` instances that compare equal
under the model's equality and additionally agree on `alias`, the
serialized descriptors — and hence the SHA-256 cache keys computed from
them — are identical. -/
theorem C1_descriptor_of_eq (a b : CompilerModel)
    (heq : compilerEq a b = true) (halias : a.aliasName = b.aliasName) :
    to_dict a = to_dict b := by
  have h : a = b := by
    obtain ⟨acc, acxx, af77, afc, asp, aos, atg, afl, amo, aen, aer, aei, aal⟩ := a
    obtain ⟨bcc, bcxx, bf77, bfc, bsp, bos, btg, bfl, bmo, ben, ber, bei, bal⟩ := b
    simp only [compilerEq, Bool.and_eq_true, decide_eq_true_eq] at heq
    simp only at halias
    obtain ⟨⟨⟨⟨⟨⟨⟨⟨⟨⟨⟨h1, h2⟩, h3⟩, h4⟩, h5⟩, h6⟩, h7⟩, h8⟩, h9⟩, h10⟩, h11⟩, h12⟩ := heq
    simp_all
  rw [h]

/-- Witness for C1's amended theorem at a concrete pair. -/
theorem C1_descriptor_of_eq_witness :
    to_dict gccToolchainAliased = to_dict { gccToolchainAliased with cc := some "/usr/bin/gcc" } :=
  C1_descriptor_of_eq gccToolchainAliased
    { gccToolchainAliased with cc := some "/usr/bin/gcc" } (by decide) rfl

/-! ## Persistent probe cache (`FileCompilerCache`, `CompilerCacheEntry`) -/

/-- A JSON value in an entry field position: `null`, a string, or any
other shape (number, boolean, array, object). -/
inductive EntryJson where
  | null : EntryJson
  | str : String → EntryJson
  | other : EntryJson
deriving DecidableEq

/-- A JSON value in an entry position of the store: an object with named
fields, or any non-object shape. -/
inductive StoreVal where
  | obj : List (String × EntryJson) → StoreVal
  | notObj : StoreVal
deriving DecidableEq

/-- The parsed top-level store: an association of hex-digest keys to raw
entry values.  A store that failed to decode as JSON, or whose top level
is not an object, is modelled as `none` upstream. -/
def Store : Type := List (String × StoreVal)

/-- `CompilerCacheEntry`: the deserialized probe result. -/
structure CompilerCacheEntry where
  c_compiler_output : Option String
  real_version : String
deriving DecidableEq

/-- `CompilerCacheEntry.from_dict`: the data must be an object,
`real_version` must be a string, and `c_compiler_output` must be a string
or null/absent (Python's `data.get` maps an absent field and a JSON null
both to `None`); any other shape raises `ValueError`, modelled as
`none`. -/
def CompilerCacheEntry.from_dict : StoreVal → Option CompilerCacheEntry
  | StoreVal.notObj => none
  | StoreVal.obj fields =>
    match fields.lookup "real_version", fields.lookup "c_compiler_output" with
    | some (EntryJson.str v), some (EntryJson.str s) => some ⟨some s, v⟩
    | some (EntryJson.str v), some EntryJson.null => some ⟨none, v⟩
    | some (EntryJson.str v), none => some ⟨none, v⟩
    | _, _ => none

/-- Remove a key from the store (`del self._data[key]`). -/
def storeErase : Store → String → Store
  | [], _ => []
  | (k1, v1) :: rest, k =>
    if k1 = k then storeErase rest k else (k1, v1) :: storeErase rest k

/-- Set a key in the store (`self._data[key] = value`): replace in place
when present, append otherwise. -/
def storeInsert : Store → String → StoreVal → Store
  | [], k, v => [(k, v)]
  | (k', v') :: rest, k, v =>
    if k' = k then (k, v) :: rest else (k', v') :: storeInsert rest k v

/-- `FileCompilerCache._get_entry`: look the key up in the in-memory
mapping; a missing key yields nothing, a value that fails
`CompilerCacheEntry.from_dict` is deleted from the mapping and yields
nothing, and a valid value is deserialized.  Returns the entry (if any)
together with the possibly pruned mapping. -/
def getEntry (d : Store) (k : String) : Option CompilerCacheEntry × Store :=
  match d.lookup k with
  | none => (none, d)
  | some v =>
    match CompilerCacheEntry.from_dict v with
    | some e => (some e, d)
    | none => (none, storeErase d k)

/-- The raw probe value computed on a miss (`CompilerCache.value`): the
optional verbose C-compile output and the real version string. -/
structure ProbeValue where
  c_compiler_output : Option String
  real_version : String
deriving DecidableEq

/-- Serialize a probe value as the raw entry object written to the store. -/
def ProbeValue.toStoreVal (p : ProbeValue) : StoreVal :=
  StoreVal.obj
    [("c_compiler_output",
        match p.c_compiler_output with
        | some s => EntryJson.str s
        | none => EntryJson.null),
      ("real_version", EntryJson.str p.real_version)]

theorem from_dict_toStoreVal (p : ProbeValue) :
    CompilerCacheEntry.from_dict p.toStoreVal
      = some ⟨p.c_compiler_output, p.real_version⟩ := by
  cases h : p.c_compiler_output <;>
    simp [ProbeValue.toStoreVal, CompilerCacheEntry.from_dict, List.lookup, h]

/-- The observable outcome of `FileCompilerCache.get`: the returned
entry, the store written back by the write transaction (`none` when the
read transaction already produced a hit and no write happened), and the
number of probe executions (`CompilerCache.value` invocations). -/
structure GetResult where
  entry : CompilerCacheEntry
  written : Option Store
  probes : Nat

/-- `FileCompilerCache.get`.  `readParsed` is the store as parsed under
the shared read transaction and `writeParsed` the store as re-parsed from
the file under the exclusive write transaction (`none` models a JSON
decode failure or a non-object top level, which is treated as an empty
mapping).  On a read hit the entry is returned with no write; otherwise,
under the write transaction, an entry committed in the meantime is
returned without probing, and only when the key is still absent (or its
entry malformed and dropped) is the probe executed once, its value
inserted, and the whole mapping written back.  The write transaction
always writes the current mapping back, also on the reuse path. -/
def fileCacheGet (readParsed writeParsed : Option Store) (key : String)
    (probe : ProbeValue) : GetResult :=
  let data0 := readParsed.getD []
  match (getEntry data0 key).1 with
  | some e => ⟨e, none, 0⟩
  | none =>
    let data1 := writeParsed.getD []
    match getEntry data1 key with
    | (some e, data2) => ⟨e, some data2, 0⟩
    | (none, data2) =>
      let data3 := storeInsert data2 key probe.toStoreVal
      ⟨⟨probe.c_compiler_output, probe.real_version⟩, some data3, 1⟩


theorem lookup_storeInsert (d : Store) (k : String) (v : StoreVal) :
    (storeInsert d k v).lookup k = some v := by
  induction d with
  | nil => simp [storeInsert, List.lookup]
  | cons kv rest ih =>
    obtain ⟨k1, v1⟩ := kv
    by_cases h : k1 = k
    · subst h
      simp [storeInsert, List.lookup]
    · have hne : (k == k1) = false := beq_eq_false_iff_ne.mpr (fun he => h he.symm)
      simp [storeInsert, h, List.lookup, hne, ih]

theorem lookup_storeInsert_ne (d : Store) (k k' : String) (v : StoreVal)
    (h : k' ≠ k) : (storeInsert d k v).lookup k' = d.lookup k' := by
  induction d with
  | nil => simp [storeInsert, List.lookup, beq_eq_false_iff_ne.mpr h]
  | cons kv rest ih =>
    obtain ⟨k1, v1⟩ := kv
    by_cases hk : k1 = k
    · subst hk
      simp [storeInsert, List.lookup, beq_eq_false_iff_ne.mpr h]
    · by_cases hk' : k' = k1
      · simp [storeInsert, hk, List.lookup, hk']
      · simp [storeInsert, hk, List.lookup, beq_eq_false_iff_ne.mpr hk', ih]

theorem lookup_storeErase_ne (d : Store) (k k' : String) (h : k' ≠ k) :
    (storeErase d k).lookup k' = d.lookup k' := by
  induction d with
  | nil => rfl
  | cons kv rest ih =>
    obtain ⟨k1, v1⟩ := kv
    by_cases hk : k1 = k
    · subst hk
      simp [storeErase, List.lookup, beq_eq_false_iff_ne.mpr h, ih]
    · by_cases hk' : k' = k1
      · simp [storeErase, hk, List.lookup, hk']
      · simp [storeErase, hk, List.lookup, beq_eq_false_iff_ne.mpr hk', ih]

theorem fileCacheGet_read_hit (readParsed writeParsed : Option Store) (key : String)
    (p : ProbeValue) (e : CompilerCacheEntry)
    (h : (getEntry (readParsed.getD []) key).1 = some e) :
    fileCacheGet readParsed writeParsed key p = ⟨e, none, 0⟩ := by
  simp [fileCacheGet, h]

theorem fileCacheGet_write_hit (readParsed writeParsed : Option Store) (key : String)
    (p : ProbeValue) (e : CompilerCacheEntry) (d2 : Store)
    (h0 : (getEntry (readParsed.getD []) key).1 = none)
    (h1 : getEntry (writeParsed.getD []) key = (some e, d2)) :
    fileCacheGet readParsed writeParsed key p = ⟨e, some d2, 0⟩ := by
  simp [fileCacheGet, h0, h1]

theorem fileCacheGet_miss (readParsed writeParsed : Option Store) (key : String)
    (p : ProbeValue) (d2 : Store)
    (h0 : (getEntry (readParsed.getD []) key).1 = none)
    (h1 : getEntry (writeParsed.getD []) key = (none, d2)) :
    fileCacheGet readParsed writeParsed key p
      = ⟨⟨p.c_compiler_output, p.real_version⟩,
          some (storeInsert d2 key p.toStoreVal), 1⟩ := by
  simp [fileCacheGet, h0, h1]

theorem getEntry_of_lookup_valid (d : Store) (k : String) (v : StoreVal)
    (e : CompilerCacheEntry) (hl : d.lookup k = some v)
    (hd : CompilerCacheEntry.from_dict v = some e) :
    getEntry d k = (some e, d) := by
  simp [getEntry, hl, hd]

theorem getEntry_some_inv (d : Store) (k : String) (e : CompilerCacheEntry) (d2 : Store)
    (h : getEntry d k = (some e, d2)) :
    d2 = d ∧ ∃ v, d.lookup k = some v ∧ CompilerCacheEntry.from_dict v = some e := by
  rcases hl : d.lookup k with _ | v
  · simp only [getEntry, hl] at h
    simp at h
  · simp only [getEntry, hl] at h
    rcases hd : CompilerCacheEntry.from_dict v with _ | e'
    · simp only [hd] at h
      simp at h
    · simp only [hd] at h
      simp only [Prod.mk.injEq, Option.some.injEq] at h
      exact ⟨h.2.symm, v, hl ▸ rfl, by rw [hd, h.1]⟩

theorem getEntry_snd_lookup (d : Store) (k k' : String) (h : k' ≠ k) :
    ((getEntry d k).2).lookup k' = d.lookup k' := by
  rcases hl : d.lookup k with _ | v
  · simp [getEntry, hl]
  · rcases hd : CompilerCacheEntry.from_dict v with _ | e
    · simp only [getEntry, hl, hd]
      exact lookup_storeErase_ne d k k' h
    · simp [getEntry, hl, hd]

/-- C2: on a cache miss the write path re-reads the persisted store under
the exclusive transaction; a valid entry committed in the meantime is
returned with zero probe executions; only when the key is still absent is
the probe run (exactly once), its value inserted, and the whole mapping
written back (the key maps to the probe value, every other key is
preserved).  In every case at most one probe runs, and a subsequent `get`
whose snapshots are the committed store returns the identical entry with
zero probes — at most one probe execution per distinct key for a fixed
store state. -/
theorem C2_cache_get_single_probe (readParsed writeParsed : Option Store) (key : String)
    (p : ProbeValue) :
    (fileCacheGet readParsed writeParsed key p).probes ≤ 1 ∧
    (∀ e d2, (getEntry (readParsed.getD []) key).1 = none →
      getEntry (writeParsed.getD []) key = (some e, d2) →
      fileCacheGet readParsed writeParsed key p = ⟨e, some d2, 0⟩) ∧
    (∀ d2, (getEntry (readParsed.getD []) key).1 = none →
      getEntry (writeParsed.getD []) key = (none, d2) →
      (fileCacheGet readParsed writeParsed key p).probes = 1 ∧
      (fileCacheGet readParsed writeParsed key p).entry
        = ⟨p.c_compiler_output, p.real_version⟩ ∧
      ∃ s, (fileCacheGet readParsed writeParsed key p).written = some s ∧
        s.lookup key = some p.toStoreVal ∧
        (∀ k', k' ≠ key → s.lookup k' = (writeParsed.getD []).lookup k')) ∧
    (∀ s, (fileCacheGet readParsed writeParsed key p).written = some s →
      ∀ (r2 : Option Store) (p2 : ProbeValue),
        fileCacheGet (some s) r2 key p2
          = ⟨(fileCacheGet readParsed writeParsed key p).entry, none, 0⟩) := by
  refine ⟨?_, ?_, ?_, ?_⟩
  · rcases h0 : (getEntry (readParsed.getD []) key).1 with _ | e0
    · rcases h1 : getEntry (writeParsed.getD []) key with ⟨_ | e1, d2⟩
      · rw [fileCacheGet_miss readParsed writeParsed key p d2 h0 h1]
      · rw [fileCacheGet_write_hit readParsed writeParsed key p e1 d2 h0 h1]
        exact Nat.zero_le 1
    · rw [fileCacheGet_read_hit readParsed writeParsed key p e0 h0]
      exact Nat.zero_le 1
  · intro e d2 h0 h1
    exact fileCacheGet_write_hit readParsed writeParsed key p e d2 h0 h1
  · intro d2 h0 h1
    rw [fileCacheGet_miss readParsed writeParsed key p d2 h0 h1]
    refine ⟨rfl, rfl, storeInsert d2 key p.toStoreVal, rfl,
      lookup_storeInsert d2 key p.toStoreVal, ?_⟩
    intro k' hk'
    rw [lookup_storeInsert_ne d2 key k' p.toStoreVal hk']
    have := getEntry_snd_lookup (writeParsed.getD []) key k' hk'
    rw [h1] at this
    exact this
  · intro s hs r2 p2
    rcases h0 : (getEntry (readParsed.getD []) key).1 with _ | e0
    · rcases h1 : getEntry (writeParsed.getD []) key with ⟨_ | e1, d2⟩
      · rw [fileCacheGet_miss readParsed writeParsed key p d2 h0 h1] at hs ⊢
        obtain hseq := Option.some.inj hs
        subst hseq
        refine fileCacheGet_read_hit _ r2 key p2 ⟨p.c_compiler_output, p.real_version⟩ ?_
        have : getEntry (storeInsert d2 key p.toStoreVal) key
            = (some ⟨p.c_compiler_output, p.real_version⟩, storeInsert d2 key p.toStoreVal) :=
          getEntry_of_lookup_valid _ key p.toStoreVal _
            (lookup_storeInsert d2 key p.toStoreVal) (from_dict_toStoreVal p)
        simp [this]
      · rw [fileCacheGet_write_hit readParsed writeParsed key p e1 d2 h0 h1] at hs ⊢
        obtain hseq := Option.some.inj hs
        subst hseq
        obtain ⟨hd2, v, hv, hfd⟩ := getEntry_some_inv (writeParsed.getD []) key e1 d2 h1
        refine fileCacheGet_read_hit _ r2 key p2 e1 ?_
        have : getEntry d2 key = (some e1, d2) :=
          getEntry_of_lookup_valid d2 key v e1 (hd2 ▸ hv) hfd
        simp [this]
    · rw [fileCacheGet_read_hit readParsed writeParsed key p e0 h0] at hs
      simp at hs

/-- Witness for C2: with a write snapshot already holding a valid entry
for the key, the entry is reused with zero probes; and a fresh miss on an
empty store probes once and commits a store on which a second `get`
probes zero times. -/
theorem C2_cache_get_single_probe_witness :
    fileCacheGet (some []) (some [("k", (ProbeValue.mk (some "out") "9.9").toStoreVal)]) "k"
        (ProbeValue.mk none "1.0")
      = ⟨⟨some "out", "9.9"⟩, some [("k", (ProbeValue.mk (some "out") "9.9").toStoreVal)], 0⟩ ∧
    fileCacheGet (some []) (some []) "k" (ProbeValue.mk none "1.0")
      = ⟨⟨none, "1.0"⟩, some [("k", (ProbeValue.mk none "1.0").toStoreVal)], 1⟩ ∧
    fileCacheGet (some [("k", (ProbeValue.mk none "1.0").toStoreVal)]) none "k"
        (ProbeValue.mk (some "z") "2.0")
      = ⟨⟨none, "1.0"⟩, none, 0⟩ := by
  refine ⟨?_, rfl, ?_⟩
  · exact (C2_cache_get_single_probe (some [])
      (some [("k", (ProbeValue.mk (some "out") "9.9").toStoreVal)]) "k"
      (ProbeValue.mk none "1.0")).2.1 ⟨some "out", "9.9"⟩
      [("k", (ProbeValue.mk (some "out") "9.9").toStoreVal)] rfl rfl
  · exact (C2_cache_get_single_probe (some []) (some []) "k"
      (ProbeValue.mk none "1.0")).2.2.2
      [("k", (ProbeValue.mk none "1.0").toStoreVal)] rfl none (ProbeValue.mk (some "z") "2.0")

/-- C7: a persisted store that fails to parse as a JSON object (modelled
as `none`) is treated as empty on both the read and the write path, and
the cache proceeds; an individual entry failing structural validation
(`real_version` not a string, or `c_compiler_output` not a string or
null) — characterized exactly in the second conjunct — is dropped from
the mapping and its value recomputed by a single probe, with every other
key of the mapping preserved. -/
theorem C7_cache_corruption :
    (∀ (w : Option Store) (key : String) (p : ProbeValue),
      fileCacheGet none w key p = fileCacheGet (some []) w key p) ∧
    (∀ (r : Option Store) (key : String) (p : ProbeValue),
      fileCacheGet r none key p = fileCacheGet r (some []) key p) ∧
    (∀ fields : List (String × EntryJson),
      (CompilerCacheEntry.from_dict (StoreVal.obj fields)).isSome
      ↔ ((∃ rv, fields.lookup "real_version" = some (EntryJson.str rv)) ∧
         (fields.lookup "c_compiler_output" = none ∨
          fields.lookup "c_compiler_output" = some EntryJson.null ∨
          ∃ s, fields.lookup "c_compiler_output" = some (EntryJson.str s)))) ∧
    (∀ (r w : Option Store) (key : String) (p : ProbeValue) (v : StoreVal),
      (getEntry (r.getD []) key).1 = none →
      (w.getD []).lookup key = some v →
      CompilerCacheEntry.from_dict v = none →
      (fileCacheGet r w key p).probes = 1 ∧
      (fileCacheGet r w key p).entry = ⟨p.c_compiler_output, p.real_version⟩ ∧
      ∃ s, (fileCacheGet r w key p).written = some s ∧
        s.lookup key = some p.toStoreVal ∧
        (∀ k', k' ≠ key → s.lookup k' = (w.getD []).lookup k')) := by
  refine ⟨fun _ _ _ => rfl, fun _ _ _ => rfl, ?_, ?_⟩
  · intro fields
    rcases hrv : fields.lookup "real_version" with _ | rv <;>
      rcases hcc : fields.lookup "c_compiler_output" with _ | cc
    · simp [CompilerCacheEntry.from_dict, hrv, hcc]
    · cases cc <;> simp [CompilerCacheEntry.from_dict, hrv, hcc]
    · cases rv <;> simp [CompilerCacheEntry.from_dict, hrv, hcc]
    · cases rv <;> cases cc <;> simp [CompilerCacheEntry.from_dict, hrv, hcc]
  · intro r w key p v h0 hl hv
    have h1 : getEntry (w.getD []) key = (none, storeErase (w.getD []) key) := by
      simp [getEntry, hl, hv]
    rw [fileCacheGet_miss r w key p (storeErase (w.getD []) key) h0 h1]
    refine ⟨rfl, rfl, storeInsert (storeErase (w.getD []) key) key p.toStoreVal, rfl,
      lookup_storeInsert _ _ _, ?_⟩
    intro k' hk'
    rw [lookup_storeInsert_ne _ _ _ _ hk', lookup_storeErase_ne _ _ _ hk']

/-- Witness for C7: a malformed entry (numeric `real_version`) is dropped
and recomputed by one probe, and an unparsable store behaves as the empty
store. -/
theorem C7_cache_corruption_witness :
    (fileCacheGet none
        (some [("k", StoreVal.obj [("real_version", EntryJson.other)]),
               ("j", (ProbeValue.mk none "3.3").toStoreVal)])
        "k" (ProbeValue.mk none "7.7")).probes = 1 ∧
    fileCacheGet none (some []) "k" (ProbeValue.mk none "7.7")
      = fileCacheGet (some []) (some []) "k" (ProbeValue.mk none "7.7") := by
  constructor
  · exact (C7_cache_corruption.2.2.2 none
      (some [("k", StoreVal.obj [("real_version", EntryJson.other)]),
             ("j", (ProbeValue.mk none "3.3").toStoreVal)])
      "k" (ProbeValue.mk none "7.7") (StoreVal.obj [("real_version", EntryJson.other)])
      rfl rfl rfl).1
  · exact C7_cache_corruption.1 (some []) "k" (ProbeValue.mk none "7.7")

/-! ## Path normalization (`os.path.abspath`, POSIX) -/

/-- Suffix test on strings. -/
def strEndsWith (s suffix : String) : Bool :=
  charsStartWith suffix.toList.reverse s.toList.reverse

/-- `s[1:]` on strings. -/
def strDrop1 (s : String) : String :=
  match s.toList with
  | [] => ""
  | _ :: cs => String.mk cs

/-- Split a character list on a separator, keeping empty pieces
(`str.split(sep)`). -/
def splitOnSep (sep : Char) : List Char → List Char → List String
  | [], acc => [String.mk acc.reverse]
  | c :: cs, acc =>
    if c = sep then String.mk acc.reverse :: splitOnSep sep cs []
    else splitOnSep sep cs (c :: acc)

/-- Join with a separator (`sep.join`). -/
def joinWith (sep : String) : List String → String
  | [] => ""
  | [a] => a
  | a :: b :: ts => a ++ sep ++ joinWith sep (b :: ts)

/-- `posixpath.normpath`: collapse repeated separators, `.` and `..`
components, with the special two-slash root preserved. -/
def normpath (path : String) : String :=
  if path = "" then "." else
  let initialSlashes : Nat :=
    if strStartsWith path "//" && !(strStartsWith path "///") then 2
    else if strStartsWith path "/" then 1 else 0
  let comps := splitOnSep '/' path.toList []
  let newComps := comps.foldl (fun acc comp =>
    if comp = "" ∨ comp = "." then acc
    else if comp ≠ ".." ∨ (initialSlashes = 0 ∧ acc = []) ∨ acc.getLast? = some ".." then
      acc ++ [comp]
    else if acc ≠ [] then acc.dropLast else acc) []
  let joined := joinWith "/" newComps
  let res :=
    (if initialSlashes = 2 then "//" else if initialSlashes = 1 then "/" else "") ++ joined
  if res = "" then "." else res

/-- `os.path.join` for two components (POSIX). -/
def joinPath (a b : String) : String :=
  if strStartsWith b "/" then b
  else if a = "" then b
  else if strEndsWith a "/" then a ++ b
  else a ++ "/" ++ b

/-- `os.path.abspath`: join onto the working directory and normalize. -/
def abspath (cwd p : String) : String :=
  normpath (joinPath cwd p)

/-! ## Link-line parser (`_parse_link_paths`) -/

/-- The matcher of `_LINK_DIR_ARG` (`^-L(.:)?(?P<dir>[/\\].*)`) on the
characters of a token, returning the captured `dir` group: after `-L`, an
optional single drive character plus `:` may precede the directory, which
must begin with a slash or backslash; with the drive-letter alternative
failing, the whole remainder is the directory when it begins with a slash
or backslash. -/
def linkDirArgChars : List Char → Option (List Char)
  | '-' :: 'L' :: rest =>
    match rest with
    | c0 :: ':' :: c2 :: cs =>
      if c0 ≠ '\n' ∧ (c2 = '/' ∨ c2 = '\\') then some (c2 :: cs)
      else if c0 = '/' ∨ c0 = '\\' then some (c0 :: ':' :: c2 :: cs)
      else none
    | c0 :: cs =>
      if c0 = '/' ∨ c0 = '\\' then some (c0 :: cs) else none
    | [] => none
  | _ => none

/-- `_LINK_DIR_ARG` on a token string. -/
def linkDirArg (arg : String) : Option String :=
  (linkDirArgChars arg.toList).map String.mk

/-- The matcher of `_LIBPATH_ARG`, the pattern anchored at the token
start that accepts a `-` or `/` prefix character, then exactly `LIBPATH`
or exactly `libpath`, a colon, and the captured remainder as the
directory. -/
def libpathArgChars : List Char → Option (List Char)
  | [] => none
  | c :: rest =>
    if c = '-' ∨ c = '/' then
      match stripChars "LIBPATH:".toList rest with
      | some r => some r
      | none =>
        match stripChars "libpath:".toList rest with
        | some r => some r
        | none => none
    else none

/-- `_LIBPATH_ARG` on a token string. -/
def libpathArg (arg : String) : Option String :=
  (libpathArgChars arg.toList).map String.mk

/-- The `[^/\\]*( |$)` suffix of `_LINKER_LINE` at a position: some run
of non-slash characters followed by a space or the end of the line. -/
def linkerTail (rest : List Char) : Bool :=
  let pfx := rest.takeWhile (fun c => c ≠ '/' ∧ c ≠ '\\')
  pfx.contains ' ' || pfx.length = rest.length

/-- The `([^/\\]+-)ld` alternative after its first (non-slash) character
has been consumed: scan forward through non-slash characters looking for
a `-` immediately followed by `ld` and the tail pattern. -/
def dashLdFind : List Char → Bool
  | [] => false
  | c :: rest =>
    if c = '/' ∨ c = '\\' then false
    else
      (if c = '-' then
        match stripChars "ld".toList rest with
        | some r => linkerTail r
        | none => false
      else false)
      || dashLdFind rest

/-- The `([^/\\]+-)ld` alternative of the tool group. -/
def dashLd : List Char → Bool
  | [] => false
  | c :: rest => if c = '/' ∨ c = '\\' then false else dashLdFind rest

/-- The tool group `(link|ld|([^/\\]+-)?ld|collect2)` of `_LINKER_LINE`
followed by its `[^/\\]*( |$)` tail, anchored at the given position. -/
def linkerTool (l : List Char) : Bool :=
  (match stripChars "link".toList l with
   | some r => linkerTail r
   | none => false)
  || (match stripChars "ld".toList l with
      | some r => linkerTail r
      | none => false)
  || (match stripChars "collect2".toList l with
      | some r => linkerTail r
      | none => false)
  || dashLd l

/-- The scan of `_LINKER_LINE`'s prefix group `( *|.*[/\\])`: a position
is a valid tool start when the preceding prefix is all spaces or ends
with a slash or backslash.  `allSp` records whether every character so
far was a space; `valid` whether the current position is a valid start. -/
def linkerLoop (allSp valid : Bool) : List Char → Bool
  | [] => false
  | c :: rest =>
    (valid && linkerTool (c :: rest))
    || linkerLoop (allSp && c == ' ') ((allSp && c == ' ') || c == '/' || c == '\\') rest

/-- `_LINKER_LINE.match(line)` as a Boolean. -/
def linkerLineMatch (line : String) : Bool :=
  linkerLoop true true line.toList

/-- The `[A-Za-z0-9_]` character class. -/
def isWordChar (c : Char) : Bool :=
  c.isAlpha || c.isDigit || c == '_'

/-- Continuation of the `^[A-Za-z0-9_]+=` alternative after its first
word character. -/
def envAssignRest : List Char → Bool
  | [] => false
  | c :: rest => if c == '=' then true else isWordChar c && envAssignRest rest

/-- The `^[A-Za-z0-9_]+=` alternative: one or more word characters then
`=`, at the start of the line. -/
def envAssignLine : List Char → Bool
  | [] => false
  | c :: rest => isWordChar c && envAssignRest rest

/-- `_LINKER_LINE_IGNORE.match(line)`: a `collect2 version` banner, a
`NAME=value` environment-dump line, or a `/ldfe ` front-end marker, each
anchored at the start of the line. -/
def linkerLineIgnore (line : String) : Bool :=
  strStartsWith line "collect2 version" || envAssignLine line.toList
    || strStartsWith line "/ldfe "

/-- The token scan of an accepted linker line: a bare `-L` or `-Y` sets a
pending flag (and is itself never consumed as a directory); with the flag
pending, the next token that is not itself a bare `-L`/`-Y` is taken as a
directory; otherwise both `_LINK_DIR_ARG` and `_LIBPATH_ARG` are tried on
the token and each match is emitted. -/
def scanTokens : Bool → List String → List String
  | _, [] => []
  | nextArg, t :: ts =>
    if t = "-L" ∨ t = "-Y" then scanTokens true ts
    else if nextArg then t :: scanTokens false ts
    else ((linkDirArg t).toList ++ (libpathArg t).toList) ++ scanTokens false ts

/-- The directories contributed by one line through the linker-line
recognizer: the token scan when the line matches `_LINKER_LINE` and does
not match `_LINKER_LINE_IGNORE`, nothing otherwise. -/
def lineDirs (line : String) : List String :=
  if linkerLineMatch line && !(linkerLineIgnore line) then scanTokens false (splitWs line)
  else []

/-- The line loop of `_parse_link_paths`: while inside the
`Library search paths:` block, a line beginning with a tab is captured
verbatim minus the leading tab (and is not given to the linker-line
recognizer); the first non-tab line ends the block and is processed
normally.  Outside the block, a line beginning with the header enters the
block for the following lines (the header line itself is still given
to the recognizer). -/
def lineLoop : Bool → List String → List String
  | _, [] => []
  | true, line :: rest =>
    if strStartsWith line "\t" then strDrop1 line :: lineLoop true rest
    else lineDirs line ++ lineLoop false rest
  | false, line :: rest =>
    lineDirs line ++ lineLoop (strStartsWith line "Library search paths:") rest

/-- First-seen-order deduplication. -/
def dedupKeepFirst (seen : List String) : List String → List String
  | [] => []
  | d :: ds =>
    if seen.contains d then dedupKeepFirst seen ds
    else d :: dedupKeepFirst (d :: seen) ds

/-- `_parse_link_paths`: collect raw directories from the block capture
and the linker-line token scans, normalize each to an absolute path, and
deduplicate preserving first-seen order. -/
def parse_link_paths (cwd : String) (s : String) : List String :=
  dedupKeepFirst [] ((lineLoop false (splitLines s)).map (abspath cwd))

/-! ## System-path post-filter (`_parse_non_system_link_dirs`) -/

/-- Modelled from the spec: `llnl.util.filesystem.path_contains_subdirectory`
is imported from a module outside this excerpt's sources.  Per the spec it
tests whether a path is nested under a canonical system library root "via
subdirectory containment, not exact match": `/usr/lib/foo` is nested under
`/usr/lib/`, while `/usr/lib` itself is not. -/
def path_contains_subdirectory (path root : String) : Bool :=
  strStartsWith (path ++ "/") root && (path ++ "/") != root

/-- `in_system_subdirectory` from `compiler.py`: nested under one of the
six canonical system library roots. -/
def in_system_subdirectory (path : String) : Bool :=
  ["/lib/", "/lib64/", "/usr/lib/", "/usr/lib64/", "/usr/local/lib/",
    "/usr/local/lib64/"].any (fun x => path_contains_subdirectory path x)

/-- Modelled from the spec: `spack.util.environment.filter_system_paths`
is imported from a module outside this excerpt's sources.  Per the spec it
"only checks for an exact match" against the known system library
directories, which are passed here as a parameter. -/
def filter_system_paths (system_dirs : List String) (paths : List String) : List String :=
  paths.filter (fun p => ¬ system_dirs.contains p)

/-- `_parse_non_system_link_dirs`: parse the link directories, drop those
that do not exist on disk (`isDir` models `os.path.isdir`), drop exact
matches of known system directories, then drop directories nested under a
canonical system root. -/
def parse_non_system_link_dirs (isDir : String → Bool) (system_dirs : List String)
    (cwd : String) (s : String) : List String :=
  let link_dirs := parse_link_paths cwd s
  let existing := link_dirs.filter isDir
  let non_exact := filter_system_paths system_dirs existing
  non_exact.filter (fun p => ¬ in_system_subdirectory p)

/-- C4: the post-filter keeps a parsed directory exactly when it exists
on disk, is not an exact match of a known system library directory, and
is not nested under one of the six canonical system roots by subdirectory
containment; `/usr/lib/foo` is nested (dropped by containment) while
`/usr/lib` is not nested (dropped only when listed verbatim in the
exact-match system list), as the two concrete runs illustrate. -/
theorem C4_post_filter :
    (∀ (isDir : String → Bool) (system_dirs : List String) (cwd s : String) (d : String),
      d ∈ parse_non_system_link_dirs isDir system_dirs cwd s
        ↔ d ∈ parse_link_paths cwd s ∧ isDir d = true ∧ ¬ d ∈ system_dirs ∧
            in_system_subdirectory d = false) ∧
    in_system_subdirectory "/usr/lib/foo" = true ∧
    in_system_subdirectory "/usr/lib" = false ∧
    parse_non_system_link_dirs (fun _ => true) [] "/"
        "ld x -L/usr/lib -L/usr/lib/foo" = ["/usr/lib"] ∧
    parse_non_system_link_dirs (fun _ => true) ["/usr/lib"] "/"
        "ld x -L/usr/lib -L/usr/lib/foo" = [] := by
  refine ⟨?_, by decide, by decide, by decide, by decide⟩
  intro isDir system_dirs cwd s d
  simp only [parse_non_system_link_dirs, filter_system_paths, List.mem_filter,
    decide_eq_true_eq]
  constructor
  · rintro ⟨⟨⟨hmem, hdir⟩, hexact⟩, hsub⟩
    refine ⟨hmem, hdir, fun hc => hexact (List.elem_iff.mpr hc), ?_⟩
    simpa using hsub
  · rintro ⟨hmem, hdir, hexact, hsub⟩
    refine ⟨⟨⟨hmem, hdir⟩, fun hc => hexact (List.elem_iff.mp hc)⟩, ?_⟩
    simpa using hsub

/-! ## Deduplication properties and the token-scan contract -/

theorem mem_dedupKeepFirst (l : List String) (seen : List String) (x : String) :
    x ∈ dedupKeepFirst seen l ↔ x ∈ l ∧ ¬ seen.contains x := by
  induction l generalizing seen with
  | nil => simp [dedupKeepFirst]
  | cons d ds ih =>
    by_cases hd : seen.contains d
    · rw [dedupKeepFirst, if_pos hd, ih seen]
      constructor
      · rintro ⟨hx, hs⟩
        exact ⟨List.mem_cons_of_mem d hx, hs⟩
      · rintro ⟨hx, hs⟩
        rcases List.mem_cons.mp hx with h | h
        · exact absurd (h ▸ hd) hs
        · exact ⟨h, hs⟩
    · rw [dedupKeepFirst, if_neg hd]
      constructor
      · intro hx
        rcases List.mem_cons.mp hx with h | h
        · exact ⟨h ▸ List.mem_cons_self d ds, h ▸ hd⟩
        · obtain ⟨h1, h2⟩ := (ih (d :: seen)).mp h
          refine ⟨List.mem_cons_of_mem d h1, fun hc => h2 ?_⟩
          simp only [List.contains, List.elem_cons]
          rcases hc2 : (x == d) with _ | _
          · simpa [List.contains] using hc
          · rfl
      · rintro ⟨hx, hs⟩
        rcases List.mem_cons.mp hx with h | h
        · exact h ▸ List.mem_cons_self d (dedupKeepFirst (d :: seen) ds)
        · by_cases hxd : x = d
          · exact hxd ▸ List.mem_cons_self d (dedupKeepFirst (d :: seen) ds)
          · refine List.mem_cons_of_mem d ((ih (d :: seen)).mpr ⟨h, fun hc => ?_⟩)
            simp only [List.contains, List.elem_cons] at hc
            rw [show (x == d) = false from beq_eq_false_iff_ne.mpr hxd] at hc
            exact hs hc

theorem nodup_dedupKeepFirst (l : List String) (seen : List String) :
    (dedupKeepFirst seen l).Nodup := by
  induction l generalizing seen with
  | nil => exact List.nodup_nil
  | cons d ds ih =>
    by_cases hd : seen.contains d
    · rw [dedupKeepFirst, if_pos hd]
      exact ih seen
    · rw [dedupKeepFirst, if_neg hd]
      refine List.Nodup.cons (fun hc => ?_) (ih (d :: seen))
      obtain ⟨_, h2⟩ := (mem_dedupKeepFirst ds (d :: seen) d).mp hc
      exact h2 (by simp [List.contains])

theorem sublist_dedupKeepFirst (l : List String) (seen : List String) :
    List.Sublist (dedupKeepFirst seen l) l := by
  induction l generalizing seen with
  | nil => exact List.Sublist.refl []
  | cons d ds ih =>
    by_cases hd : seen.contains d
    · rw [dedupKeepFirst, if_pos hd]
      exact List.Sublist.cons d (ih seen)
    · rw [dedupKeepFirst, if_neg hd]
      exact List.Sublist.cons₂ d (ih (d :: seen))

/-- Case-insensitive equality of ASCII letters. -/
def charEqIgnoreCase (a b : Char) : Bool :=
  a = b || (decide ('A' ≤ a) && decide (a ≤ 'Z') && b.toNat = a.toNat + 32)
    || (decide ('A' ≤ b) && decide (b ≤ 'Z') && a.toNat = b.toNat + 32)

/-- Case-insensitive string equality over ASCII. -/
def charsEqIgnoreCase : List Char → List Char → Bool
  | [], [] => true
  | a :: as, b :: bs => charEqIgnoreCase a b && charsEqIgnoreCase as bs
  | _, _ => false

/-- Case-insensitive equality of ASCII strings. -/
def strEqIgnoreCase (s t : String) : Bool :=
  charsEqIgnoreCase s.toList t.toList

/-- C8 counterexample: the token `-LibPath:/opt/x` matches
`-libpath:/opt/x` case-insensitively, yet `_LIBPATH_ARG` — whose
alternation accepts only the exact spellings `LIBPATH` and `libpath` —
extracts nothing from it, and a linker line carrying it (accepted by the
linker-line recognizer and not ignored) contributes no directory.  The
claimed case-insensitive matching therefore fails on the code. -/
theorem C8_counterexample :
    strEqIgnoreCase "-LibPath:/opt/x" "-libpath:/opt/x" = true ∧
    libpathArg "-LibPath:/opt/x" = none ∧
    linkerLineMatch " link -LibPath:/opt/x foo.obj" = true ∧
    linkerLineIgnore " link -LibPath:/opt/x foo.obj" = false ∧
    lineDirs " link -LibPath:/opt/x foo.obj" = [] ∧
    libpathArg "-libpath:/opt/x" = some "/opt/x" := by
  refine ⟨by decide, by decide, by decide, by decide, by decide, by decide⟩

/-- C8 amended: on every accepted linker line the whitespace-split tokens
are scanned as follows — a bare `-L` or `-Y` sets the pending-directory
flag; with the flag pending, the next token that is not itself a bare
`-L`/`-Y` is consumed as a directory; any other token contributes the
`_LINK_DIR_ARG` match (with optional drive letter) and the `_LIBPATH_ARG`
match for the exact spellings `LIBPATH`/`libpath` (either `-` or `/`
prefix); the union of extracted candidates is normalized with `abspath`
and deduplicated preserving first-seen order, as on the worked example
`-L/opt/lib -L /opt/lib2` repeated. -/
theorem C8_token_scan :
    (∀ (b : Bool) (ts : List String),
      scanTokens b ("-L" :: ts) = scanTokens true ts ∧
      scanTokens b ("-Y" :: ts) = scanTokens true ts) ∧
    (∀ (t : String) (ts : List String), t ≠ "-L" → t ≠ "-Y" →
      scanTokens true (t :: ts) = t :: scanTokens false ts) ∧
    (∀ (t : String) (ts : List String), t ≠ "-L" → t ≠ "-Y" →
      scanTokens false (t :: ts)
        = (linkDirArg t).toList ++ (libpathArg t).toList ++ scanTokens false ts) ∧
    linkDirArg "-L/opt/lib" = some "/opt/lib" ∧
    linkDirArg "-LC:/x" = some "/x" ∧
    libpathArg "/LIBPATH:/x" = some "/x" ∧
    libpathArg "-libpath:/x" = some "/x" ∧
    (∀ cwd s, (parse_link_paths cwd s).Nodup ∧
      List.Sublist (parse_link_paths cwd s)
        ((lineLoop false (splitLines s)).map (abspath cwd)) ∧
      ∀ d ∈ (lineLoop false (splitLines s)).map (abspath cwd),
        d ∈ parse_link_paths cwd s) ∧
    parse_link_paths "/cwd" "  /usr/bin/ld a.o -L/opt/lib -L /opt/lib2 -L/opt/lib foo.o"
      = ["/opt/lib", "/opt/lib2"] := by
  refine ⟨?_, ?_, ?_, by decide, by decide, by decide, by decide, ?_, by decide⟩
  · intro b ts
    constructor <;> simp [scanTokens]
  · intro t ts h1 h2
    rw [scanTokens, if_neg (by simp [h1, h2]), if_pos rfl]
  · intro t ts h1 h2
    rw [scanTokens, if_neg (by simp [h1, h2])]
    rfl
  · intro cwd s
    refine ⟨nodup_dedupKeepFirst _ [], sublist_dedupKeepFirst _ [], ?_⟩
    intro d hd
    exact (mem_dedupKeepFirst _ [] d).mpr ⟨hd, by simp [List.contains]⟩

/-- Witness for C8's amended theorem at concrete tokens. -/
theorem C8_token_scan_witness :
    scanTokens true ["/opt/lib2"] = ["/opt/lib2"] ∧
    scanTokens false ["-L/opt/lib"] = ["/opt/lib"] := by
  constructor
  · exact (C8_token_scan.2.1 "/opt/lib2" [] (by decide) (by decide)).trans (by decide)
  · exact (C8_token_scan.2.2.1 "-L/opt/lib" [] (by decide) (by decide)).trans (by decide)

/-- C9 counterexample: the block is entered by `startswith`, not by exact
match — a header line carrying a suffix after `Library search paths:`
still enters the block, so the following tab line is captured, refuting
"entered only on a line exactly matching that header". -/
theorem C9_counterexample :
    parse_link_paths "/c" "Library search paths: (from command line)\n\t/opt/blk"
      = ["/opt/blk"] ∧
    "Library search paths: (from command line)" ≠ "Library search paths:" ∧
    strStartsWith "Library search paths: (from command line)" "Library search paths:"
      = true := by
  refine ⟨by decide, by decide, by decide⟩

/-- C9 amended: the block is entered exactly on lines *beginning with*
the header `Library search paths:`; while inside, every line beginning
with a tab is captured verbatim minus the leading tab as a candidate
directory, and the first non-tab line ends the block and is processed as
an ordinary line. -/
theorem C9_search_paths_block :
    (∀ (line : String) (rest : List String),
      strStartsWith line "Library search paths:" = true →
      lineLoop false (line :: rest) = lineDirs line ++ lineLoop true rest) ∧
    (∀ (line : String) (rest : List String),
      strStartsWith line "Library search paths:" = false →
      lineLoop false (line :: rest) = lineDirs line ++ lineLoop false rest) ∧
    (∀ (blk : List String) (line : String) (rest : List String),
      (∀ l ∈ blk, strStartsWith l "\t" = true) →
      strStartsWith line "\t" = false →
      lineLoop true (blk ++ line :: rest)
        = blk.map strDrop1 ++ (lineDirs line ++ lineLoop false rest)) ∧
    parse_link_paths "/c" "Library search paths:\n\t/opt/a\n\t/opt/b\nend of block\n\t/opt/after"
      = ["/opt/a", "/opt/b"] := by
  refine ⟨?_, ?_, ?_, by decide⟩
  · intro line rest h
    simp [lineLoop, h]
  · intro line rest h
    simp [lineLoop, h]
  · intro blk line rest hblk hline
    induction blk with
    | nil =>
      simp [lineLoop, hline]
    | cons l blk ih =>
      have hl : strStartsWith l "\t" = true := hblk l (List.mem_cons_self l blk)
      rw [List.cons_append, lineLoop, if_pos hl, List.map_cons,
        ih (fun u hu => hblk u (List.mem_cons_of_mem l hu))]
      rfl

/-- Witness for C9's amended theorem at concrete line lists. -/
theorem C9_search_paths_block_witness :
    lineLoop true ["\t/opt/a", "end"] = ["/opt/a"] ∧
    lineLoop false ["Library search paths: junk", "\t/opt/b"] = ["/opt/b"] := by
  constructor
  · exact (C9_search_paths_block.2.2.1 ["\t/opt/a"] "end" [] (by decide) (by decide)).trans
      (by decide)
  · exact (C9_search_paths_block.1 "Library search paths: junk" ["\t/opt/b"]
      (by decide)).trans (by decide)

/-- Witness for C4 at a concrete run: `/usr/lib` survives the post-filter
when absent from the exact-match list. -/
theorem C4_post_filter_witness :
    "/usr/lib" ∈ parse_non_system_link_dirs (fun _ => true) [] "/"
      "ld x -L/usr/lib -L/usr/lib/foo" := by
  exact (C4_post_filter.1 (fun _ => true) [] "/" "ld x -L/usr/lib -L/usr/lib/foo"
    "/usr/lib").mpr ⟨by decide, rfl, by decide, by decide⟩
